import Mathlib

/-!
# Firewall: rule store, decision engine and lifecycle controller

A shallow embedding of the Go packages `models`, `repository`, `service` and of
the part of `utils` the service touches, followed by theorems about them.

Conventions of the embedding.

* A Go `error` is an `Option String` (`none` is `nil`).
* A Go runtime panic is the `Except.error` branch of an `Except String _`.
* `time.Time` values and `time.Now().UnixNano()` readings are `Int`s that the
  caller passes in.
* Go `int` and `int64` values are `Int`. Ports are only compared. The three
  statistics counters grow by one per call from zero, so wrap-around at `2^63`
  is out of reach and is not modelled.
* A Go `map[string]Rule` is the list of its entries. The order of the list
  stands for the order in which a `range` statement visits the entries, which
  Go leaves unspecified; everything below is stated for every such order.
* The repository is used through the `RuleRepository` interface, a record of
  state-passing functions, so that any implementation can be plugged in.
* Mutexes, goroutines and logging have no sequential effect on the state and
  are left out.
-/

namespace Firewall

/-! ## models/firewall_models.go -/

/-- The struct `models.Rule`. -/
structure Rule where
  ID : String
  Port : Int
  Protocol : String
  Action : String
  Direction : String
  CreatedAt : Int
deriving DecidableEq, Repr

/-- The struct `models.PacketInfo`. -/
structure PacketInfo where
  SourcePort : Int
  DestinationPort : Int
  Protocol : String
  SourceIP : String
  DestinationIP : String
deriving DecidableEq, Repr

/-! ## Go maps and channels -/

/-- The entries of a `map[string]Rule`, in the order a `range` visits them. -/
abbrev RuleMap := List (String × Rule)

/-- The assignment `m[k] = v`: overwrite the entry of `k`, or add one. -/
def RuleMap.assign : RuleMap → String → Rule → RuleMap
  | [], k, v => [(k, v)]
  | (k', v') :: m, k, v =>
    if k' = k then (k, v) :: m else (k', v') :: RuleMap.assign m k v

/-- The statement `delete(m, k)`. -/
def RuleMap.delete (m : RuleMap) (k : String) : RuleMap :=
  m.filter (fun e => decide (e.1 ≠ k))

/-- The lookup `v, exists := m[k]`. -/
def RuleMap.index : RuleMap → String → Option Rule
  | [], _ => none
  | (k', v') :: m, k => if k' = k then some v' else RuleMap.index m k

/-- A Go channel: its capacity, the buffered elements (oldest first) and
whether it has been closed. -/
structure Chan (α : Type) where
  cap : Nat
  buf : List α
  closed : Bool
deriving DecidableEq, Repr

/-- The expression `make(chan α, cap)`. -/
def Chan.make (α : Type) (cap : Nat) : Chan α := ⟨cap, [], false⟩

/-- The statement `close(c)`; closing a closed channel panics. -/
def Chan.close {α : Type} (c : Chan α) : Except String (Chan α) :=
  if c.closed then .error "close of closed channel"
  else .ok { c with closed := true }

/-- The statement `select { case c <- x: default: }` with no receiver waiting:
the channel afterwards and whether the send case ran. The element is buffered
when there is room and the default case runs when the buffer is full; a send
on a closed channel panics. -/
def Chan.trySend {α : Type} (c : Chan α) (x : α) : Except String (Chan α × Bool) :=
  if c.closed then .error "send on closed channel"
  else if c.buf.length < c.cap then .ok ({ c with buf := c.buf ++ [x] }, true)
  else .ok (c, false)

/-! ## repository/repository.go -/

/-- The interface `RuleRepository`, over an implementation with state `σ`.
Every method returns the state it leaves behind next to its Go results. -/
structure RuleRepository (σ : Type) where
  AddRule : σ → Rule → σ × Option String
  RemoveRule : σ → String → σ × Option String
  GetRule : σ → String → σ × (Option Rule × Option String)
  GetAllRules : σ → σ × (List Rule × Option String)
  GetRulesByPort : σ → Int → σ × (List Rule × Option String)
  ClearRules : σ → σ × Option String

/-- The struct `InMemoryRuleRepository` (its mutex left out). -/
structure InMemoryRuleRepository where
  rules : RuleMap
deriving DecidableEq, Repr

def NewInMemoryRuleRepository : InMemoryRuleRepository := ⟨[]⟩

def InMemoryRuleRepository.AddRule (r : InMemoryRuleRepository) (rule : Rule) :
    InMemoryRuleRepository × Option String :=
  (⟨r.rules.assign rule.ID rule⟩, none)

def InMemoryRuleRepository.RemoveRule (r : InMemoryRuleRepository) (id : String) :
    InMemoryRuleRepository × Option String :=
  (⟨r.rules.delete id⟩, none)

def InMemoryRuleRepository.GetRule (r : InMemoryRuleRepository) (id : String) :
    InMemoryRuleRepository × (Option Rule × Option String) :=
  match r.rules.index id with
  | none => (r, (none, none))
  | some rule => (r, (some rule, none))

def InMemoryRuleRepository.GetAllRules (r : InMemoryRuleRepository) :
    InMemoryRuleRepository × (List Rule × Option String) :=
  (r, (r.rules.map Prod.snd, none))

/-- The loop of `GetRulesByPort`: append each visited rule with that port. -/
def InMemoryRuleRepository.portLoop (port : Int) : RuleMap → List Rule
  | [] => []
  | (_, rule) :: m =>
    if rule.Port = port then rule :: InMemoryRuleRepository.portLoop port m
    else InMemoryRuleRepository.portLoop port m

def InMemoryRuleRepository.GetRulesByPort (r : InMemoryRuleRepository) (port : Int) :
    InMemoryRuleRepository × (List Rule × Option String) :=
  (r, (InMemoryRuleRepository.portLoop port r.rules, none))

def InMemoryRuleRepository.ClearRules (_r : InMemoryRuleRepository) :
    InMemoryRuleRepository × Option String :=
  (⟨[]⟩, none)

/-- The in-memory store seen through the interface. -/
def inMemory : RuleRepository InMemoryRuleRepository where
  AddRule := InMemoryRuleRepository.AddRule
  RemoveRule := InMemoryRuleRepository.RemoveRule
  GetRule := InMemoryRuleRepository.GetRule
  GetAllRules := InMemoryRuleRepository.GetAllRules
  GetRulesByPort := InMemoryRuleRepository.GetRulesByPort
  ClearRules := InMemoryRuleRepository.ClearRules

/-! ## utils/logger.go (the part the service reaches) -/

/-- The struct `PacketHandler`; a listener is represented by whether it is
closed. -/
structure PacketHandler where
  packets : Chan PacketInfo
  stopChan : Chan Unit
  listeners : List Bool
deriving DecidableEq, Repr

def NewPacketHandler : PacketHandler × Option String :=
  (⟨Chan.make PacketInfo 1000, Chan.make Unit 0, []⟩, none)

def PacketHandler.Close (h : PacketHandler) : Except String PacketHandler := do
  let stop ← h.stopChan.close
  let listeners := h.listeners.map (fun _ => true)
  let packets ← h.packets.close
  pure { packets := packets, stopChan := stop, listeners := listeners }

/-- What the handler reads of a `net.TCPAddr` or `net.UDPAddr`: the text of
`IP.String()` and the port. -/
structure Addr where
  IP : String
  Port : Int
deriving DecidableEq, Repr

/-- The non-blocking send that ends `processTCPConnection` and that each
round of `handleUDPPackets` makes; the full-channel case only logs. -/
def PacketHandler.sendPacket (h : PacketHandler) (packet : PacketInfo) :
    Except String PacketHandler := do
  let (packets, _) ← h.packets.trySend packet
  pure { h with packets := packets }

/-- The method `processTCPConnection`, for a connection with these remote and
local addresses. -/
def PacketHandler.processTCPConnection (h : PacketHandler) (remoteAddr localAddr : Addr) :
    Except String PacketHandler :=
  let packet : PacketInfo :=
    { SourceIP := remoteAddr.IP, SourcePort := remoteAddr.Port,
      DestinationIP := localAddr.IP, DestinationPort := localAddr.Port,
      Protocol := "tcp" }
  h.sendPacket packet

/-- One round of the loop of `handleUDPPackets` in which the read succeeded,
for a datagram from `remoteAddr` on the socket bound to `localAddr`; the echo
it writes back does not touch the handler. -/
def PacketHandler.handleUDPPacket (h : PacketHandler) (remoteAddr localAddr : Addr) :
    Except String PacketHandler :=
  let packet : PacketInfo :=
    { SourceIP := remoteAddr.IP, SourcePort := remoteAddr.Port,
      DestinationIP := localAddr.IP, DestinationPort := localAddr.Port,
      Protocol := "udp" }
  h.sendPacket packet

/-! ## service/service.go -/

/-- The struct `FirewallStats`. -/
structure FirewallStats where
  PacketsProcessed : Int
  PacketsBlocked : Int
  PacketsAllowed : Int
  StartTime : Int
deriving DecidableEq, Repr

/-- The struct `firewallService`, over a repository with state `σ`. -/
structure firewallService (σ : Type) where
  repo : σ
  running : Bool
  stopChan : Chan Unit
  stats : FirewallStats
  packetHandler : Option PacketHandler

/-- The constructor `NewFirewallService`; `now` is the reading of
`time.Now()`. -/
def NewFirewallService {σ : Type} (repo : σ) (now : Int) : firewallService σ where
  repo := repo
  running := false
  stopChan := Chan.make Unit 0
  stats := { PacketsProcessed := 0, PacketsBlocked := 0, PacketsAllowed := 0, StartTime := now }
  packetHandler := none

/-- The method `StartFirewall`; the processing loop it launches runs
concurrently and is not part of the call. -/
def firewallService.StartFirewall {σ : Type} (s : firewallService σ) (now : Int) :
    firewallService σ × Option String :=
  if s.running then (s, some "firewall is already running")
  else
    let s := { s with running := true }
    let s := { s with stats := { s.stats with StartTime := now } }
    match NewPacketHandler with
    | (_, some err) => (s, some ("failed to initialize packet handler: " ++ err))
    | (handler, none) => ({ s with packetHandler := some handler }, none)

/-- The method `StopFirewall`; the result is an error when the call panics. -/
def firewallService.StopFirewall {σ : Type} (s : firewallService σ) :
    Except String (firewallService σ) :=
  if !s.running then .ok s
  else do
    let stop ← s.stopChan.close
    let s := { s with stopChan := stop }
    let s := { s with running := false }
    match s.packetHandler with
    | some h =>
      let h ← h.Close
      pure { s with packetHandler := some h }
    | none => pure s

/-- The method `AddRule`; `nowID` and `nowCreated` are the readings of the two
`time.Now()` calls. -/
def firewallService.AddRule {σ : Type} (R : RuleRepository σ) (s : firewallService σ)
    (rule : Rule) (nowID nowCreated : Int) : firewallService σ × Option String :=
  let rule := if rule.ID = "" then { rule with ID := "rule_" ++ toString nowID } else rule
  let rule := { rule with CreatedAt := nowCreated }
  if rule.Port < 0 ∨ rule.Port > 65535 then
    (s, some ("invalid port number: " ++ toString rule.Port))
  else if ¬ (rule.Protocol = "tcp" ∨ rule.Protocol = "udp" ∨ rule.Protocol = "both") then
    (s, some ("invalid protocol: " ++ rule.Protocol))
  else if ¬ (rule.Action = "allow" ∨ rule.Action = "deny") then
    (s, some ("invalid action: " ++ rule.Action))
  else if ¬ (rule.Direction = "inbound" ∨ rule.Direction = "outbound"
      ∨ rule.Direction = "both") then
    (s, some ("invalid direction: " ++ rule.Direction))
  else
    let (repo, err) := R.AddRule s.repo rule
    ({ s with repo := repo }, err)

def firewallService.RemoveRule {σ : Type} (R : RuleRepository σ) (s : firewallService σ)
    (id : String) : firewallService σ × Option String :=
  let (repo, err) := R.RemoveRule s.repo id
  ({ s with repo := repo }, err)

def firewallService.GetRules {σ : Type} (R : RuleRepository σ) (s : firewallService σ) :
    firewallService σ × (List Rule × Option String) :=
  let (repo, res) := R.GetAllRules s.repo
  ({ s with repo := repo }, res)

/-- The method `determinePacketDirection`; `localIPs` is what `getLocalIPs`
returned. -/
def determinePacketDirection (localIPs : List String) (packet : PacketInfo) : String :=
  match localIPs with
  | [] => "unknown"
  | localIP :: rest =>
    if packet.DestinationIP = localIP then "inbound"
    else if packet.SourceIP = localIP then "outbound"
    else determinePacketDirection rest packet

/-- The rule loop of `CheckPacket` with the default verdict after it: the
statistics it leaves and the verdict it returns. -/
def firewallService.checkLoop (localIPs : List String) (packet : PacketInfo)
    (stats : FirewallStats) : List Rule → FirewallStats × Bool
  | [] => ({ stats with PacketsAllowed := stats.PacketsAllowed + 1 }, true)
  | rule :: rest =>
    if rule.Protocol ≠ "both" ∧ rule.Protocol ≠ packet.Protocol then
      firewallService.checkLoop localIPs packet stats rest
    else if rule.Direction ≠ "both"
        ∧ rule.Direction ≠ determinePacketDirection localIPs packet then
      firewallService.checkLoop localIPs packet stats rest
    else if rule.Port = packet.DestinationPort ∨ rule.Port = packet.SourcePort then
      if rule.Action = "allow" then
        ({ stats with PacketsAllowed := stats.PacketsAllowed + 1 }, true)
      else if rule.Action = "deny" then
        ({ stats with PacketsBlocked := stats.PacketsBlocked + 1 }, false)
      else firewallService.checkLoop localIPs packet stats rest
    else firewallService.checkLoop localIPs packet stats rest

/-- The method `CheckPacket`: the service it leaves, the verdict and the
error. `localIPs` is what `getLocalIPs` returns during the call. -/
def firewallService.CheckPacket {σ : Type} (R : RuleRepository σ) (s : firewallService σ)
    (localIPs : List String) (packet : PacketInfo) :
    firewallService σ × (Bool × Option String) :=
  let s := { s with stats := { s.stats with PacketsProcessed := s.stats.PacketsProcessed + 1 } }
  match R.GetRulesByPort s.repo packet.DestinationPort with
  | (repo, (_, some err)) => ({ s with repo := repo }, (false, some err))
  | (repo, (rules, none)) =>
    let s := { s with repo := repo }
    let step : firewallService σ → List Rule → firewallService σ × (Bool × Option String) :=
      fun s rules =>
        if rules.length = 0 then
          ({ s with stats := { s.stats with PacketsAllowed := s.stats.PacketsAllowed + 1 } },
            (true, none))
        else
          let (stats, verdict) := firewallService.checkLoop localIPs packet s.stats rules
          ({ s with stats := stats }, (verdict, none))
    if packet.SourcePort > 0 then
      match R.GetRulesByPort s.repo packet.SourcePort with
      | (repo, (_, some err)) => ({ s with repo := repo }, (false, some err))
      | (repo, (sourceRules, none)) => step { s with repo := repo } (rules ++ sourceRules)
    else step s rules

def firewallService.GetStats {σ : Type} (s : firewallService σ) : FirewallStats :=
  s.stats

/-! ## Definitions used to state the properties -/

/-- The value of `rules` when `CheckPacket` over the in-memory store reaches
its emptiness test: the rules of the destination port, then those of the
source port when it is positive. -/
def candidates (m : RuleMap) (packet : PacketInfo) : List Rule :=
  InMemoryRuleRepository.portLoop packet.DestinationPort m ++
    (if packet.SourcePort > 0 then InMemoryRuleRepository.portLoop packet.SourcePort m
     else [])

/-- The statistics with one more processed packet. -/
def FirewallStats.processedOne (st : FirewallStats) : FirewallStats :=
  { st with PacketsProcessed := st.PacketsProcessed + 1 }

/-- A rule that passes the validation of the service's `AddRule`, as the
specification words it. -/
def Rule.Valid (rule : Rule) : Prop :=
  (0 ≤ rule.Port ∧ rule.Port ≤ 65535)
  ∧ (rule.Protocol = "tcp" ∨ rule.Protocol = "udp" ∨ rule.Protocol = "both")
  ∧ (rule.Action = "allow" ∨ rule.Action = "deny")
  ∧ (rule.Direction = "inbound" ∨ rule.Direction = "outbound" ∨ rule.Direction = "both")

instance (rule : Rule) : Decidable rule.Valid := by
  unfold Rule.Valid; infer_instance

/-- The stored rules whose port equals `port`, as the specification words the
lookup by port: every rule held by the store with that port, in the order the
store holds them. -/
def storedRulesWithPort (r : InMemoryRuleRepository) (port : Int) : List Rule :=
  (r.rules.map Prod.snd).filter (fun rule => decide (rule.Port = port))

/-- The candidate sequence as the specification words it: all stored rules
whose port equals the packet's destination port, followed, only when the
source port is positive, by all stored rules whose port equals the packet's
source port. -/
def candidateSequence (r : InMemoryRuleRepository) (packet : PacketInfo) : List Rule :=
  storedRulesWithPort r packet.DestinationPort ++
    (if packet.SourcePort > 0 then storedRulesWithPort r packet.SourcePort else [])

/-- The two predicates of the specification's first-match search: the
protocol is "both" or the packet's, and the direction is "both" or the
classified direction of the packet. -/
def matchesPacket (localIPs : List String) (packet : PacketInfo) (rule : Rule) : Bool :=
  decide ((rule.Protocol = "both" ∨ rule.Protocol = packet.Protocol)
    ∧ (rule.Direction = "both"
      ∨ rule.Direction = determinePacketDirection localIPs packet))

/-- The verdict an action stands for: allow is `true`, deny is `false`. -/
def verdictOfAction (action : String) : Option Bool :=
  if action = "allow" then some true
  else if action = "deny" then some false
  else none

/-- First match wins, default allow, as the specification words it. -/
def firstMatchVerdict (localIPs : List String) (packet : PacketInfo)
    (cands : List Rule) : Option Bool :=
  match cands.find? (matchesPacket localIPs packet) with
  | some rule => verdictOfAction rule.Action
  | none => some true

/-- The rule `AddRule` hands to the store: the identifier filled in when it
was empty, the creation time set. -/
def stampRule (rule : Rule) (nowID nowCreated : Int) : Rule :=
  { (if rule.ID = "" then { rule with ID := "rule_" ++ toString nowID } else rule) with
    CreatedAt := nowCreated }

/-- One call on the service's rule and packet entry points, with the clock
readings and the local addresses the call observes. -/
inductive Call where
  | AddRule (rule : Rule) (nowID nowCreated : Int)
  | RemoveRule (id : String)
  | CheckPacket (localIPs : List String) (packet : PacketInfo)

/-- The service after one call on the in-memory store. -/
def Call.run (s : firewallService InMemoryRuleRepository) :
    Call → firewallService InMemoryRuleRepository
  | .AddRule rule nowID nowCreated => (s.AddRule inMemory rule nowID nowCreated).1
  | .RemoveRule id => (s.RemoveRule inMemory id).1
  | .CheckPacket localIPs packet => (s.CheckPacket inMemory localIPs packet).1

/-- The service after a sequence of calls, made one after the other. -/
def runCalls (s : firewallService InMemoryRuleRepository) (calls : List Call) :
    firewallService InMemoryRuleRepository :=
  calls.foldl Call.run s

/-- One call on the lifecycle entry points. -/
inductive LifecycleCall where
  | Start (now : Int)
  | Stop
deriving DecidableEq, Repr

/-- The service after a sequence of lifecycle calls, or the panic that ended
it. -/
def runLifecycle {σ : Type} (s : firewallService σ) :
    List LifecycleCall → Except String (firewallService σ)
  | [] => .ok s
  | .Start now :: rest => runLifecycle (s.StartFirewall now).1 rest
  | .Stop :: rest =>
    match s.StopFirewall with
    | .ok s => runLifecycle s rest
    | .error e => .error e

/-- The panic message of a run, if it panicked. -/
def panicOf {α : Type} : Except String α → Option String
  | .ok _ => none
  | .error e => some e

/-- The running flag a run ends with, if it did not panic. -/
def runningOf {σ : Type} : Except String (firewallService σ) → Option Bool
  | .ok s => some s.running
  | .error _ => none

/-- The handler after the descriptors of a burst have been offered one after
the other with nothing receiving, or the panic that ended the burst. -/
def PacketHandler.offerAll (h : PacketHandler) : List PacketInfo → Except String PacketHandler
  | [] => .ok h
  | packet :: rest =>
    match h.sendPacket packet with
    | .ok h => PacketHandler.offerAll h rest
    | .error e => .error e

/-! ## Lemmas about the store and the rule loop -/

theorem mem_portLoop (port : Int) (m : RuleMap) (rule : Rule) :
    rule ∈ InMemoryRuleRepository.portLoop port m ↔
      (∃ k, (k, rule) ∈ m) ∧ rule.Port = port := by
  induction m with
  | nil => simp [InMemoryRuleRepository.portLoop]
  | cons e m ih =>
    obtain ⟨k, v⟩ := e
    unfold InMemoryRuleRepository.portLoop
    by_cases h : v.Port = port
    · simp only [h, if_true, List.mem_cons, ih, Prod.mk.injEq]
      constructor
      · rintro (rfl | ⟨⟨k', hk⟩, hp⟩)
        · exact ⟨⟨k, Or.inl ⟨rfl, rfl⟩⟩, h⟩
        · exact ⟨⟨k', Or.inr hk⟩, hp⟩
      · rintro ⟨⟨k', (⟨_, rfl⟩ | hk)⟩, hp⟩
        · exact Or.inl rfl
        · exact Or.inr ⟨⟨k', hk⟩, hp⟩
    · simp only [h, if_false, ih, List.mem_cons, Prod.mk.injEq]
      constructor
      · rintro ⟨⟨k', hk⟩, hp⟩
        exact ⟨⟨k', Or.inr hk⟩, hp⟩
      · rintro ⟨⟨k', (⟨_, rfl⟩ | hk)⟩, hp⟩
        · exact absurd hp h
        · exact ⟨⟨k', hk⟩, hp⟩

/-- The loop of `GetRulesByPort` returns exactly the stored rules with that
port, in the order the store holds them. -/
theorem portLoop_eq_storedRulesWithPort (port : Int) (r : InMemoryRuleRepository) :
    InMemoryRuleRepository.portLoop port r.rules = storedRulesWithPort r port := by
  obtain ⟨m⟩ := r
  unfold storedRulesWithPort
  induction m with
  | nil => rfl
  | cons e m ih =>
    obtain ⟨k, v⟩ := e
    simp only at ih
    unfold InMemoryRuleRepository.portLoop
    by_cases h : v.Port = port
    · rw [if_pos h, ih]
      simp [List.filter_cons, h]
    · rw [if_neg h, ih]
      simp [List.filter_cons, h]

theorem candidates_eq_candidateSequence (r : InMemoryRuleRepository)
    (packet : PacketInfo) : candidates r.rules packet = candidateSequence r packet := by
  unfold candidates candidateSequence
  rw [portLoop_eq_storedRulesWithPort, portLoop_eq_storedRulesWithPort]

theorem mem_candidates (m : RuleMap) (packet : PacketInfo) (rule : Rule)
    (h : rule ∈ candidates m packet) :
    (∃ k, (k, rule) ∈ m)
      ∧ (rule.Port = packet.DestinationPort ∨ rule.Port = packet.SourcePort) := by
  unfold candidates at h
  rcases List.mem_append.mp h with h | h
  · exact ⟨((mem_portLoop _ _ _).mp h).1, Or.inl ((mem_portLoop _ _ _).mp h).2⟩
  · split at h
    · exact ⟨((mem_portLoop _ _ _).mp h).1, Or.inr ((mem_portLoop _ _ _).mp h).2⟩
    · simp at h

/-- Over the in-memory store `CheckPacket` counts the packet, runs the rule
loop over the candidates and returns no error. -/
theorem CheckPacket_inMemory (s : firewallService InMemoryRuleRepository)
    (localIPs : List String) (packet : PacketInfo) :
    s.CheckPacket inMemory localIPs packet =
      ({ s with stats := (firewallService.checkLoop localIPs packet
            s.stats.processedOne (candidates s.repo.rules packet)).1 },
        ((firewallService.checkLoop localIPs packet
            s.stats.processedOne (candidates s.repo.rules packet)).2, none)) := by
  unfold firewallService.CheckPacket candidates FirewallStats.processedOne
  simp only [inMemory, InMemoryRuleRepository.GetRulesByPort]
  by_cases hsrc : packet.SourcePort > 0
  · simp only [hsrc, if_true]
    split
    · next h =>
      rw [List.length_eq_zero.mp h]
      simp [firewallService.checkLoop]
    · rfl
  · simp only [hsrc, if_false, List.append_nil]
    split
    · next h =>
      rw [List.length_eq_zero.mp h]
      simp [firewallService.checkLoop]
    · rfl

theorem candidates_eq_nil (m : RuleMap) (packet : PacketInfo)
    (h : ∀ e ∈ m, e.2.Port ≠ packet.DestinationPort ∧ e.2.Port ≠ packet.SourcePort) :
    candidates m packet = [] := by
  apply List.eq_nil_iff_forall_not_mem.mpr
  intro rule hmem
  obtain ⟨⟨k, hk⟩, hp⟩ := mem_candidates m packet rule hmem
  have := h (k, rule) hk
  rcases hp with hp | hp
  · exact this.1 hp
  · exact this.2 hp

/-- The rule loop leaves the processed counter and the start time alone and
adds one to exactly one of the two verdict counters, the one of its verdict. -/
theorem checkLoop_stats (localIPs : List String) (packet : PacketInfo)
    (st : FirewallStats) (rules : List Rule) :
    (firewallService.checkLoop localIPs packet st rules).1.PacketsProcessed
        = st.PacketsProcessed
    ∧ (firewallService.checkLoop localIPs packet st rules).1.StartTime = st.StartTime
    ∧ (((firewallService.checkLoop localIPs packet st rules).2 = true
        ∧ (firewallService.checkLoop localIPs packet st rules).1.PacketsAllowed
            = st.PacketsAllowed + 1
        ∧ (firewallService.checkLoop localIPs packet st rules).1.PacketsBlocked
            = st.PacketsBlocked)
      ∨ ((firewallService.checkLoop localIPs packet st rules).2 = false
        ∧ (firewallService.checkLoop localIPs packet st rules).1.PacketsBlocked
            = st.PacketsBlocked + 1
        ∧ (firewallService.checkLoop localIPs packet st rules).1.PacketsAllowed
            = st.PacketsAllowed)) := by
  induction rules with
  | nil => simp [firewallService.checkLoop]
  | cons rule rest ih =>
    unfold firewallService.checkLoop
    split
    · exact ih
    · split
      · exact ih
      · split
        · split
          · simp
          · split
            · simp
            · exact ih
        · exact ih

/-! The four paths of `CheckPacket` over any store behind the interface. -/

/-- On candidates that carry one of the packet's ports and a valid action the
rule loop returns the first-match verdict of the specification. -/
theorem checkLoop_firstMatch (localIPs : List String) (packet : PacketInfo)
    (st : FirewallStats) (cands : List Rule)
    (h : ∀ rule ∈ cands,
      (rule.Port = packet.DestinationPort ∨ rule.Port = packet.SourcePort)
        ∧ (rule.Action = "allow" ∨ rule.Action = "deny")) :
    firstMatchVerdict localIPs packet cands
      = some (firewallService.checkLoop localIPs packet st cands).2 := by
  induction cands with
  | nil => simp [firstMatchVerdict, firewallService.checkLoop]
  | cons rule rest ih =>
    have hrest := ih (fun r hr => h r (List.mem_cons_of_mem _ hr))
    obtain ⟨hport, hact⟩ := h rule (List.mem_cons_self _ _)
    unfold firewallService.checkLoop
    unfold firstMatchVerdict at hrest ⊢
    by_cases hproto : rule.Protocol ≠ "both" ∧ rule.Protocol ≠ packet.Protocol
    · have hm : matchesPacket localIPs packet rule = false := by
        simp only [matchesPacket, decide_eq_false_iff_not]
        rintro ⟨h1 | h1, _⟩
        · exact hproto.1 h1
        · exact hproto.2 h1
      rw [if_pos hproto]
      simp only [List.find?_cons, hm]
      exact hrest
    · by_cases hdir : rule.Direction ≠ "both"
          ∧ rule.Direction ≠ determinePacketDirection localIPs packet
      · have hm : matchesPacket localIPs packet rule = false := by
          simp only [matchesPacket, decide_eq_false_iff_not]
          rintro ⟨_, h1 | h1⟩
          · exact hdir.1 h1
          · exact hdir.2 h1
        rw [if_neg hproto, if_pos hdir]
        simp only [List.find?_cons, hm]
        exact hrest
      · have hm : matchesPacket localIPs packet rule = true := by
          simp only [matchesPacket, decide_eq_true_eq]
          constructor
          · by_contra hc
            exact hproto ⟨fun h1 => hc (Or.inl h1), fun h1 => hc (Or.inr h1)⟩
          · by_contra hc
            exact hdir ⟨fun h1 => hc (Or.inl h1), fun h1 => hc (Or.inr h1)⟩
        rw [if_neg hproto, if_neg hdir, if_pos hport]
        simp only [List.find?_cons, hm]
        rcases hact with ha | ha
        · simp [verdictOfAction, ha]
        · simp [verdictOfAction, ha]

theorem checkLoop_all_skip (localIPs : List String) (packet : PacketInfo)
    (st : FirewallStats) (cands : List Rule)
    (h : ∀ rule ∈ cands, rule.Protocol ≠ "both" ∧ rule.Protocol ≠ packet.Protocol) :
    firewallService.checkLoop localIPs packet st cands
      = ({ st with PacketsAllowed := st.PacketsAllowed + 1 }, true) := by
  induction cands with
  | nil => rfl
  | cons rule rest ih =>
    rw [firewallService.checkLoop, if_pos (h rule (List.mem_cons_self _ _))]
    exact ih (fun r hr => h r (List.mem_cons_of_mem _ hr))

theorem checkLoop_cons_deny (localIPs : List String) (packet : PacketInfo)
    (st : FirewallStats) (rule : Rule) (rest : List Rule)
    (hproto : rule.Protocol = "both" ∨ rule.Protocol = packet.Protocol)
    (hdir : rule.Direction = "both")
    (hport : rule.Port = packet.DestinationPort ∨ rule.Port = packet.SourcePort)
    (hact : rule.Action = "deny") :
    firewallService.checkLoop localIPs packet st (rule :: rest)
      = ({ st with PacketsBlocked := st.PacketsBlocked + 1 }, false) := by
  have h1 : ¬ (rule.Protocol ≠ "both" ∧ rule.Protocol ≠ packet.Protocol) := by
    rintro ⟨ha, hb⟩
    rcases hproto with h | h
    · exact ha h
    · exact hb h
  have h2 : ¬ (rule.Direction ≠ "both"
      ∧ rule.Direction ≠ determinePacketDirection localIPs packet) :=
    fun h => h.1 hdir
  have h3 : ¬ rule.Action = "allow" := by
    rw [hact]
    decide
  rw [firewallService.checkLoop, if_neg h1, if_neg h2, if_pos hport, if_neg h3, if_pos hact]

/-! ## Lemmas about the map of rules -/

theorem RuleMap.index_assign_self (m : RuleMap) (k : String) (v : Rule) :
    (m.assign k v).index k = some v := by
  induction m with
  | nil => simp [RuleMap.assign, RuleMap.index]
  | cons e m ih =>
    obtain ⟨k', v'⟩ := e
    unfold RuleMap.assign
    by_cases h : k' = k
    · rw [if_pos h]
      simp [RuleMap.index]
    · rw [if_neg h, RuleMap.index, if_neg h]
      exact ih

theorem RuleMap.index_delete_ne (m : RuleMap) (k id : String) (h : id ≠ k) :
    (m.delete k).index id = m.index id := by
  induction m with
  | nil => rfl
  | cons e m ih =>
    obtain ⟨k', v'⟩ := e
    unfold RuleMap.delete at ih ⊢
    by_cases hk : k' = k
    · have hid : ¬ k' = id := fun hc => h (hc ▸ hk)
      simp only [List.filter_cons, hk, ne_eq, not_true_eq_false, decide_False,
        Bool.false_eq_true, if_false]
      rw [RuleMap.index, if_neg (hk ▸ hid)]
      simpa [hk] using ih
    · simp only [List.filter_cons, hk, ne_eq, not_false_eq_true, decide_True, if_true]
      rw [RuleMap.index, RuleMap.index]
      by_cases hid : k' = id
      · rw [if_pos hid, if_pos hid]
      · rw [if_neg hid, if_neg hid]
        exact ih

theorem RuleMap.mem_delete (m : RuleMap) (k : String) (e : String × Rule) :
    e ∈ m.delete k ↔ e ∈ m ∧ e.1 ≠ k := by
  simp [RuleMap.delete, List.mem_filter]

theorem RuleMap.mem_assign (m : RuleMap) (k : String) (v : Rule) (e : String × Rule)
    (h : e ∈ m.assign k v) : e ∈ m ∨ e = (k, v) := by
  induction m with
  | nil =>
    simp only [RuleMap.assign, List.mem_singleton] at h
    exact Or.inr h
  | cons e' m ih =>
    obtain ⟨k', v'⟩ := e'
    unfold RuleMap.assign at h
    by_cases hk : k' = k
    · rw [if_pos hk] at h
      rcases List.mem_cons.mp h with h | h
      · exact Or.inr h
      · exact Or.inl (List.mem_cons_of_mem _ h)
    · rw [if_neg hk] at h
      rcases List.mem_cons.mp h with h | h
      · exact Or.inl (h ▸ List.mem_cons_self _ _)
      · rcases ih h with h | h
        · exact Or.inl (List.mem_cons_of_mem _ h)
        · exact Or.inr h

/-! ## Lemmas about the direction classifier -/

theorem direction_inbound_of_split (packet : PacketInfo) (pre post : List String)
    (hsrc : packet.SourceIP ∉ pre) :
    determinePacketDirection (pre ++ packet.DestinationIP :: post) packet = "inbound" := by
  induction pre with
  | nil => simp [determinePacketDirection]
  | cons a pre ih =>
    have ha : ¬ packet.SourceIP = a := fun h => hsrc (h ▸ List.mem_cons_self _ _)
    have hpre : packet.SourceIP ∉ pre := fun h => hsrc (List.mem_cons_of_mem _ h)
    rw [List.cons_append, determinePacketDirection]
    by_cases hd : packet.DestinationIP = a
    · rw [if_pos hd]
    · rw [if_neg hd, if_neg ha]
      exact ih hpre

theorem direction_outbound_of_split (packet : PacketInfo) (pre post : List String)
    (hdst : packet.DestinationIP ∉ pre) (hne : packet.DestinationIP ≠ packet.SourceIP) :
    determinePacketDirection (pre ++ packet.SourceIP :: post) packet = "outbound" := by
  induction pre with
  | nil =>
    rw [List.nil_append, determinePacketDirection, if_neg hne, if_pos rfl]
  | cons a pre ih =>
    have ha : ¬ packet.DestinationIP = a := fun h => hdst (h ▸ List.mem_cons_self _ _)
    have hpre : packet.DestinationIP ∉ pre := fun h => hdst (List.mem_cons_of_mem _ h)
    rw [List.cons_append, determinePacketDirection, if_neg ha]
    by_cases hs : packet.SourceIP = a
    · rw [if_pos hs]
    · rw [if_neg hs]
      exact ih hpre

theorem direction_unknown_iff (localIPs : List String) (packet : PacketInfo) :
    determinePacketDirection localIPs packet = "unknown"
      ↔ packet.DestinationIP ∉ localIPs ∧ packet.SourceIP ∉ localIPs := by
  induction localIPs with
  | nil => simp [determinePacketDirection]
  | cons a rest ih =>
    rw [determinePacketDirection]
    by_cases hd : packet.DestinationIP = a
    · rw [if_pos hd]
      simp [hd]
    · rw [if_neg hd]
      by_cases hs : packet.SourceIP = a
      · rw [if_pos hs]
        simp [hs]
      · rw [if_neg hs, ih]
        simp [hd, hs]

theorem direction_outbound_source_local (localIPs : List String) (packet : PacketInfo)
    (h : determinePacketDirection localIPs packet = "outbound") :
    packet.SourceIP ∈ localIPs := by
  induction localIPs with
  | nil => simp [determinePacketDirection] at h
  | cons a rest ih =>
    rw [determinePacketDirection] at h
    by_cases hd : packet.DestinationIP = a
    · rw [if_pos hd] at h
      simp at h
    · rw [if_neg hd] at h
      by_cases hs : packet.SourceIP = a
      · exact hs ▸ List.mem_cons_self _ _
      · rw [if_neg hs] at h
        exact List.mem_cons_of_mem _ (ih h)

/-! ## Lemmas about `AddRule` -/

theorem genID_ne_empty (n : Int) : "rule_" ++ toString n ≠ "" := by
  intro h
  have := congrArg String.length h
  simp [String.length_append] at this
  exact absurd this.1 (by decide)

theorem AddRule_unfold {σ : Type} (R : RuleRepository σ) (s : firewallService σ)
    (rule : Rule) (nowID nowCreated : Int) :
    s.AddRule R rule nowID nowCreated =
      if rule.Port < 0 ∨ rule.Port > 65535 then
        (s, some ("invalid port number: " ++ toString rule.Port))
      else if ¬ (rule.Protocol = "tcp" ∨ rule.Protocol = "udp" ∨ rule.Protocol = "both") then
        (s, some ("invalid protocol: " ++ rule.Protocol))
      else if ¬ (rule.Action = "allow" ∨ rule.Action = "deny") then
        (s, some ("invalid action: " ++ rule.Action))
      else if ¬ (rule.Direction = "inbound" ∨ rule.Direction = "outbound"
          ∨ rule.Direction = "both") then
        (s, some ("invalid direction: " ++ rule.Direction))
      else
        ({ s with repo := (R.AddRule s.repo (stampRule rule nowID nowCreated)).1 },
          (R.AddRule s.repo (stampRule rule nowID nowCreated)).2) := by
  unfold firewallService.AddRule stampRule
  by_cases hid : rule.ID = "" <;> simp only [hid, if_true, if_false]

theorem AddRule_invalid {σ : Type} (R : RuleRepository σ) (s : firewallService σ)
    (rule : Rule) (nowID nowCreated : Int) (h : ¬ rule.Valid) :
    (s.AddRule R rule nowID nowCreated).1 = s
      ∧ (s.AddRule R rule nowID nowCreated).2 ≠ none := by
  rw [AddRule_unfold]
  split_ifs with h1 h2 h3 h4
  all_goals first
    | (exfalso; exact h ⟨by omega, h2, h3, h4⟩)
    | simp

theorem AddRule_valid {σ : Type} (R : RuleRepository σ) (s : firewallService σ)
    (rule : Rule) (nowID nowCreated : Int) (h : rule.Valid) :
    s.AddRule R rule nowID nowCreated =
      ({ s with repo := (R.AddRule s.repo (stampRule rule nowID nowCreated)).1 },
        (R.AddRule s.repo (stampRule rule nowID nowCreated)).2) := by
  rw [AddRule_unfold]
  obtain ⟨⟨hp1, hp2⟩, h2, h3, h4⟩ := h
  rw [if_neg (by omega), if_neg (not_not.mpr h2), if_neg (not_not.mpr h3),
    if_neg (not_not.mpr h4)]

theorem AddRule_stats {σ : Type} (R : RuleRepository σ) (s : firewallService σ)
    (rule : Rule) (nowID nowCreated : Int) :
    (s.AddRule R rule nowID nowCreated).1.stats = s.stats := by
  rw [AddRule_unfold]
  split_ifs <;> rfl

/-! ## Lemmas about sequences of calls -/

/-- Every entry of the in-memory store is filed under the identifier of its
rule, whatever calls the service has served. -/
theorem runCalls_keyed (calls : List Call) (s : firewallService InMemoryRuleRepository)
    (h : ∀ e ∈ s.repo.rules, e.1 = e.2.ID) :
    ∀ e ∈ (runCalls s calls).repo.rules, e.1 = e.2.ID := by
  induction calls generalizing s with
  | nil => exact h
  | cons c rest ih =>
    apply ih (Call.run s c)
    cases c with
    | AddRule rule nowID nowCreated =>
      intro e he
      simp only [Call.run] at he
      by_cases hv : rule.Valid
      · rw [AddRule_valid _ _ _ _ _ hv] at he
        rcases RuleMap.mem_assign _ _ _ _ he with he | he
        · exact h e he
        · rw [he]
      · rw [(AddRule_invalid _ _ _ _ _ hv).1] at he
        exact h e he
    | RemoveRule id =>
      intro e he
      exact h e ((RuleMap.mem_delete _ _ _).mp he).1
    | CheckPacket localIPs packet =>
      intro e he
      simp only [Call.run, CheckPacket_inMemory] at he
      exact h e he

/-- Packet checks leave the rule store as it is. -/
theorem runCalls_checks_repo (mid : List (List String × PacketInfo))
    (s : firewallService InMemoryRuleRepository) :
    (runCalls s (mid.map (fun c => Call.CheckPacket c.1 c.2))).repo = s.repo := by
  induction mid generalizing s with
  | nil => rfl
  | cons c rest ih =>
    simp only [List.map_cons, runCalls, List.foldl_cons]
    have := ih (Call.run s (Call.CheckPacket c.1 c.2))
    simp only [runCalls] at this
    rw [this]
    simp only [Call.run, CheckPacket_inMemory]

/-! ## The decision engine -/

/-- C1: over the in-memory store, when every stored rule passed the
validation of `AddRule`, `CheckPacket` returns no error and its verdict is the
first-match, default-allow verdict of the specification on the candidate
sequence: the stored rules whose port is the destination port, which is what
`GetRulesByPort` returns for it, followed, only when the source port is
positive, by the stored rules whose port is the source port, which is what
`GetRulesByPort` returns for that. -/
theorem checkPacket_first_match_default_allow
    (s : firewallService InMemoryRuleRepository) (localIPs : List String)
    (packet : PacketInfo) (hvalid : ∀ e ∈ s.repo.rules, e.2.Valid) :
    firstMatchVerdict localIPs packet (candidateSequence s.repo packet)
        = some (s.CheckPacket inMemory localIPs packet).2.1
      ∧ (s.CheckPacket inMemory localIPs packet).2.2 = none
      ∧ (inMemory.GetRulesByPort s.repo packet.DestinationPort).2
          = (storedRulesWithPort s.repo packet.DestinationPort, none)
      ∧ (inMemory.GetRulesByPort s.repo packet.SourcePort).2
          = (storedRulesWithPort s.repo packet.SourcePort, none) := by
  rw [CheckPacket_inMemory]
  refine ⟨?_, rfl, ?_, ?_⟩
  rotate_left
  · show (_, _) = _
    rw [portLoop_eq_storedRulesWithPort]
  · show (_, _) = _
    rw [portLoop_eq_storedRulesWithPort]
  rw [← candidates_eq_candidateSequence]
  apply checkLoop_firstMatch
  intro rule hmem
  obtain ⟨⟨k, hk⟩, hp⟩ := mem_candidates _ _ _ hmem
  exact ⟨hp, (hvalid (k, rule) hk).2.2.1⟩

/-- A witness of C1: two valid rules on port 80, an inbound deny rule held
before an allow rule, and a packet to a local address; the first match
denies. -/
theorem checkPacket_first_match_default_allow_witness :
    (∀ e ∈ [("a", (⟨"a", 80, "tcp", "deny", "inbound", 0⟩ : Rule)),
          ("b", (⟨"b", 80, "both", "allow", "both", 0⟩ : Rule))], e.2.Valid)
    ∧ firstMatchVerdict ["10.0.0.1"] ⟨1234, 80, "tcp", "1.2.3.4", "10.0.0.1"⟩
          (candidateSequence ⟨[("a", ⟨"a", 80, "tcp", "deny", "inbound", 0⟩),
            ("b", ⟨"b", 80, "both", "allow", "both", 0⟩)]⟩
            ⟨1234, 80, "tcp", "1.2.3.4", "10.0.0.1"⟩)
        = some false
    ∧ ((NewFirewallService (⟨[("a", ⟨"a", 80, "tcp", "deny", "inbound", 0⟩),
          ("b", ⟨"b", 80, "both", "allow", "both", 0⟩)]⟩ : InMemoryRuleRepository)
        0).CheckPacket inMemory ["10.0.0.1"]
          ⟨1234, 80, "tcp", "1.2.3.4", "10.0.0.1"⟩).2 = (false, none) :=
  ⟨by decide,
    (checkPacket_first_match_default_allow
      (NewFirewallService (⟨[("a", ⟨"a", 80, "tcp", "deny", "inbound", 0⟩),
          ("b", ⟨"b", 80, "both", "allow", "both", 0⟩)]⟩ : InMemoryRuleRepository) 0)
      ["10.0.0.1"] ⟨1234, 80, "tcp", "1.2.3.4", "10.0.0.1"⟩ (by decide)).1.trans
      (by decide),
    by decide⟩

/-- C2 fails on the code: with local addresses 10.0.0.1 and 10.0.0.2 the
packet 10.0.0.1 -> 10.0.0.2 has a local destination and is classified
outbound, because its source equals the address visited first; with the same
two addresses in the other order it is classified inbound. Over a store whose
only rule denies inbound tcp traffic to port 80, `CheckPacket` therefore
allows that packet under the first order and denies it under the second. -/
theorem direction_destination_priority_fails :
    (⟨1234, 80, "tcp", "10.0.0.1", "10.0.0.2"⟩ : PacketInfo).DestinationIP
        ∈ ["10.0.0.1", "10.0.0.2"]
    ∧ determinePacketDirection ["10.0.0.1", "10.0.0.2"]
        ⟨1234, 80, "tcp", "10.0.0.1", "10.0.0.2"⟩ = "outbound"
    ∧ determinePacketDirection ["10.0.0.2", "10.0.0.1"]
        ⟨1234, 80, "tcp", "10.0.0.1", "10.0.0.2"⟩ = "inbound"
    ∧ ((NewFirewallService (⟨[("r", ⟨"r", 80, "tcp", "deny", "inbound", 0⟩)]⟩ :
          InMemoryRuleRepository) 0).CheckPacket inMemory ["10.0.0.1", "10.0.0.2"]
            ⟨1234, 80, "tcp", "10.0.0.1", "10.0.0.2"⟩).2 = (true, none)
    ∧ ((NewFirewallService (⟨[("r", ⟨"r", 80, "tcp", "deny", "inbound", 0⟩)]⟩ :
          InMemoryRuleRepository) 0).CheckPacket inMemory ["10.0.0.2", "10.0.0.1"]
            ⟨1234, 80, "tcp", "10.0.0.1", "10.0.0.2"⟩).2 = (false, none) := by
  decide

/-- What the classifier computes: the first local address, in list order, that
equals the destination or the source IP decides. The packet is inbound when the
destination IP is at some position of the list and the source IP equals no
address before that position; it is outbound when the source IP is at some
position, the destination IP equals no address before it and differs from the
source IP, in particular when the source is local and the destination is not;
it is outbound only when the source is local; and it is unknown exactly when
neither is local. -/
theorem direction_first_local_address_decides (packet : PacketInfo) :
    (∀ pre post : List String, packet.SourceIP ∉ pre →
        determinePacketDirection (pre ++ packet.DestinationIP :: post) packet = "inbound")
    ∧ (∀ pre post : List String, packet.DestinationIP ∉ pre →
        packet.DestinationIP ≠ packet.SourceIP →
        determinePacketDirection (pre ++ packet.SourceIP :: post) packet = "outbound")
    ∧ (∀ localIPs : List String, packet.SourceIP ∈ localIPs →
        packet.DestinationIP ∉ localIPs →
        determinePacketDirection localIPs packet = "outbound")
    ∧ (∀ localIPs : List String, determinePacketDirection localIPs packet = "outbound" →
        packet.SourceIP ∈ localIPs)
    ∧ (∀ localIPs : List String, determinePacketDirection localIPs packet = "unknown"
        ↔ packet.DestinationIP ∉ localIPs ∧ packet.SourceIP ∉ localIPs) := by
  refine ⟨fun pre post h => direction_inbound_of_split packet pre post h,
    fun pre post h hne => direction_outbound_of_split packet pre post h hne,
    ?_, fun l h => direction_outbound_source_local l packet h,
    fun l => direction_unknown_iff l packet⟩
  intro localIPs hsrc hdst
  obtain ⟨pre, post, rfl⟩ := List.append_of_mem hsrc
  apply direction_outbound_of_split
  · exact fun h => hdst (List.mem_append_left _ h)
  · intro h
    apply hdst
    rw [h]
    exact List.mem_append_right _ (List.mem_cons_self _ _)

/-- Instances of the classifier's behaviour: a local destination with a
foreign source is inbound, also behind another local address; a local source
listed first makes the packet outbound; a local source with a foreign
destination is outbound. -/
theorem direction_first_local_address_decides_witness :
    determinePacketDirection (["10.0.0.1"] ++ "10.0.0.2" :: [])
        ⟨1234, 80, "tcp", "1.2.3.4", "10.0.0.2"⟩ = "inbound"
    ∧ determinePacketDirection ([] ++ "10.0.0.1" :: ["10.0.0.2"])
        ⟨1234, 80, "tcp", "10.0.0.1", "10.0.0.2"⟩ = "outbound"
    ∧ determinePacketDirection ["10.0.0.1", "10.0.0.2"]
        ⟨1234, 80, "tcp", "10.0.0.2", "1.2.3.4"⟩ = "outbound" :=
  ⟨(direction_first_local_address_decides ⟨1234, 80, "tcp", "1.2.3.4", "10.0.0.2"⟩).1
      ["10.0.0.1"] [] (by decide),
    (direction_first_local_address_decides ⟨1234, 80, "tcp", "10.0.0.1", "10.0.0.2"⟩).2.1
      [] ["10.0.0.2"] (by decide) (by decide),
    (direction_first_local_address_decides ⟨1234, 80, "tcp", "10.0.0.2", "1.2.3.4"⟩).2.2.1
      ["10.0.0.1", "10.0.0.2"] (by decide) (by decide)⟩

theorem Call.run_stats (s : firewallService InMemoryRuleRepository) (c : Call)
    (h : s.stats.PacketsProcessed = s.stats.PacketsAllowed + s.stats.PacketsBlocked) :
    (Call.run s c).stats.PacketsProcessed
      = (Call.run s c).stats.PacketsAllowed + (Call.run s c).stats.PacketsBlocked := by
  cases c with
  | AddRule rule nowID nowCreated =>
    simp only [Call.run, AddRule_stats]
    exact h
  | RemoveRule id => exact h
  | CheckPacket localIPs packet =>
    simp only [Call.run, CheckPacket_inMemory]
    have hl := checkLoop_stats localIPs packet s.stats.processedOne
      (candidates s.repo.rules packet)
    have hp : s.stats.processedOne.PacketsProcessed = s.stats.PacketsProcessed + 1 := rfl
    have ha : s.stats.processedOne.PacketsAllowed = s.stats.PacketsAllowed := rfl
    have hb : s.stats.processedOne.PacketsBlocked = s.stats.PacketsBlocked := rfl
    rcases hl with ⟨h1, _, ⟨_, h2, h3⟩ | ⟨_, h2, h3⟩⟩ <;> omega

theorem runCalls_stats (calls : List Call) (s : firewallService InMemoryRuleRepository)
    (h : s.stats.PacketsProcessed = s.stats.PacketsAllowed + s.stats.PacketsBlocked) :
    (runCalls s calls).stats.PacketsProcessed
      = (runCalls s calls).stats.PacketsAllowed + (runCalls s calls).stats.PacketsBlocked := by
  induction calls generalizing s with
  | nil => exact h
  | cons c rest ih => exact ih (Call.run s c) (Call.run_stats s c h)

/-- C4: from a service freshly built over the in-memory store, after every
finite sequence of `AddRule`, `RemoveRule` and `CheckPacket` calls the
statistics `GetStats` returns have processed = allowed + blocked. -/
theorem stats_processed_eq_allowed_add_blocked (now : Int) (calls : List Call) :
    (runCalls (NewFirewallService NewInMemoryRuleRepository now) calls).GetStats.PacketsProcessed
      = (runCalls (NewFirewallService NewInMemoryRuleRepository now)
            calls).GetStats.PacketsAllowed
        + (runCalls (NewFirewallService NewInMemoryRuleRepository now)
            calls).GetStats.PacketsBlocked :=
  runCalls_stats calls _ rfl

/-! ## Rule validation -/

/-- C5: over the in-memory store the service's `AddRule` returns an error
exactly when the port is outside 0..65535, or the protocol is none of tcp, udp,
both, or the action is none of allow, deny, or the direction is none of
inbound, outbound, both; and when it returns an error the store, and the whole
service, is as it was. -/
theorem addRule_error_iff_invalid (s : firewallService InMemoryRuleRepository)
    (rule : Rule) (nowID nowCreated : Int) :
    ((s.AddRule inMemory rule nowID nowCreated).2 ≠ none ↔
      ((rule.Port < 0 ∨ rule.Port > 65535)
        ∨ ¬ (rule.Protocol = "tcp" ∨ rule.Protocol = "udp" ∨ rule.Protocol = "both")
        ∨ ¬ (rule.Action = "allow" ∨ rule.Action = "deny")
        ∨ ¬ (rule.Direction = "inbound" ∨ rule.Direction = "outbound"
            ∨ rule.Direction = "both")))
    ∧ ((s.AddRule inMemory rule nowID nowCreated).2 ≠ none →
        (s.AddRule inMemory rule nowID nowCreated).1.repo = s.repo
          ∧ (s.AddRule inMemory rule nowID nowCreated).1 = s) := by
  by_cases hv : rule.Valid
  · have hnone : (s.AddRule inMemory rule nowID nowCreated).2 = none := by
      rw [AddRule_valid _ _ _ _ _ hv]
      rfl
    obtain ⟨⟨hp1, hp2⟩, h2, h3, h4⟩ := hv
    refine ⟨⟨fun h => absurd hnone h, ?_⟩, fun h => absurd hnone h⟩
    rintro (h | h | h | h)
    · omega
    · exact absurd h2 h
    · exact absurd h3 h
    · exact absurd h4 h
  · obtain ⟨hs, he⟩ := AddRule_invalid inMemory s rule nowID nowCreated hv
    refine ⟨⟨fun _ => ?_, fun _ => he⟩, fun _ => ⟨by rw [hs], hs⟩⟩
    by_contra hc
    apply hv
    refine ⟨?_, ?_, ?_, ?_⟩
    · by_contra hp
      exact hc (Or.inl (by omega))
    · by_contra hp
      exact hc (Or.inr (Or.inl hp))
    · by_contra hp
      exact hc (Or.inr (Or.inr (Or.inl hp)))
    · by_contra hp
      exact hc (Or.inr (Or.inr (Or.inr hp)))

/-- A witness of C5: port 70000 is refused and the store keeps its one rule. -/
theorem addRule_error_iff_invalid_witness :
    ((NewFirewallService (⟨[("a", ⟨"a", 80, "tcp", "allow", "both", 0⟩)]⟩ :
        InMemoryRuleRepository) 0).AddRule inMemory
          ⟨"b", 70000, "tcp", "deny", "both", 0⟩ 1 2).2 ≠ none
    ∧ ((NewFirewallService (⟨[("a", ⟨"a", 80, "tcp", "allow", "both", 0⟩)]⟩ :
        InMemoryRuleRepository) 0).AddRule inMemory
          ⟨"b", 70000, "tcp", "deny", "both", 0⟩ 1 2).1.repo
        = ⟨[("a", ⟨"a", 80, "tcp", "allow", "both", 0⟩)]⟩ :=
  ⟨(addRule_error_iff_invalid _ _ 1 2).1.mpr (Or.inl (Or.inr (by decide))),
    ((addRule_error_iff_invalid _ _ 1 2).2
      ((addRule_error_iff_invalid _ _ 1 2).1.mpr (Or.inl (Or.inr (by decide))))).1⟩

/-! ## The lifecycle controller -/

/-- C6 fails on a restart: start, stop, start leaves the service running, and
the next `StopFirewall` panics, closing the cancellation channel that the
first stop closed and no start renewed. -/
theorem stopFirewall_after_restart_panics :
    runningOf (runLifecycle (NewFirewallService NewInMemoryRuleRepository 0)
        [.Start 1, .Stop, .Start 2]) = some true
    ∧ panicOf (runLifecycle (NewFirewallService NewInMemoryRuleRepository 0)
        [.Start 1, .Stop, .Start 2, .Stop]) = some "close of closed channel" := by
  decide

/-! ## Default permit, single rules, removal and identifiers -/

theorem checkPacket_default_permit_aux (s : firewallService InMemoryRuleRepository)
    (localIPs : List String) (packet : PacketInfo)
    (h : ∀ e ∈ s.repo.rules,
      e.2.Port ≠ packet.DestinationPort ∧ e.2.Port ≠ packet.SourcePort) :
    (s.CheckPacket inMemory localIPs packet).2 = (true, none)
    ∧ (s.CheckPacket inMemory localIPs packet).1.stats
        = { s.stats.processedOne with
            PacketsAllowed := s.stats.processedOne.PacketsAllowed + 1 } := by
  rw [CheckPacket_inMemory, candidates_eq_nil _ _ h]
  exact ⟨rfl, rfl⟩

/-- C7: over the in-memory store, when no stored rule has the packet's
destination port or source port, `CheckPacket` returns allow with no error,
adds one to the processed and to the allowed counter and leaves the blocked
counter as it was. -/
theorem checkPacket_default_permit (s : firewallService InMemoryRuleRepository)
    (localIPs : List String) (packet : PacketInfo)
    (h : ∀ e ∈ s.repo.rules,
      e.2.Port ≠ packet.DestinationPort ∧ e.2.Port ≠ packet.SourcePort) :
    (s.CheckPacket inMemory localIPs packet).2 = (true, none)
    ∧ (s.CheckPacket inMemory localIPs packet).1.stats.PacketsProcessed
        = s.stats.PacketsProcessed + 1
    ∧ (s.CheckPacket inMemory localIPs packet).1.stats.PacketsAllowed
        = s.stats.PacketsAllowed + 1
    ∧ (s.CheckPacket inMemory localIPs packet).1.stats.PacketsBlocked
        = s.stats.PacketsBlocked := by
  rw [CheckPacket_inMemory, candidates_eq_nil _ _ h]
  exact ⟨rfl, rfl, rfl, rfl⟩

/-- A witness of C7: one rule on port 80 and a packet between ports 1234 and
443. -/
theorem checkPacket_default_permit_witness :
    ((NewFirewallService (⟨[("a", ⟨"a", 80, "tcp", "deny", "both", 0⟩)]⟩ :
        InMemoryRuleRepository) 0).CheckPacket inMemory ["10.0.0.1"]
          ⟨1234, 443, "tcp", "1.2.3.4", "10.0.0.1"⟩).2 = (true, none) :=
  (checkPacket_default_permit
    (NewFirewallService (⟨[("a", ⟨"a", 80, "tcp", "deny", "both", 0⟩)]⟩ :
      InMemoryRuleRepository) 0) ["10.0.0.1"] ⟨1234, 443, "tcp", "1.2.3.4", "10.0.0.1"⟩
    (by decide)).1

/-- C8: when the in-memory store holds exactly one rule, with action deny,
direction both and the packet's destination port, `CheckPacket` returns deny
and adds one to the blocked counter if the rule's protocol is "both" or the
packet's, and returns allow with the blocked counter as it was otherwise. -/
theorem checkPacket_single_deny_rule (s : firewallService InMemoryRuleRepository)
    (localIPs : List String) (packet : PacketInfo) (k : String) (rule : Rule)
    (hstore : s.repo.rules = [(k, rule)]) (hact : rule.Action = "deny")
    (hdir : rule.Direction = "both") (hport : rule.Port = packet.DestinationPort) :
    (rule.Protocol = "both" ∨ rule.Protocol = packet.Protocol →
      (s.CheckPacket inMemory localIPs packet).2 = (false, none)
      ∧ (s.CheckPacket inMemory localIPs packet).1.stats.PacketsBlocked
          = s.stats.PacketsBlocked + 1)
    ∧ (¬ (rule.Protocol = "both" ∨ rule.Protocol = packet.Protocol) →
      (s.CheckPacket inMemory localIPs packet).2 = (true, none)
      ∧ (s.CheckPacket inMemory localIPs packet).1.stats.PacketsBlocked
          = s.stats.PacketsBlocked) := by
  rw [CheckPacket_inMemory, hstore]
  have hc : ∃ rest, candidates [(k, rule)] packet = rule :: rest := by
    unfold candidates
    rw [InMemoryRuleRepository.portLoop, if_pos hport]
    exact ⟨_, rfl⟩
  obtain ⟨rest, hrest⟩ := hc
  constructor
  · intro hproto
    rw [hrest, checkLoop_cons_deny localIPs packet _ rule rest hproto hdir (Or.inl hport) hact]
    exact ⟨rfl, rfl⟩
  · intro hproto
    rw [checkLoop_all_skip]
    · exact ⟨rfl, rfl⟩
    · intro r hr
      obtain ⟨⟨k', hk⟩, _⟩ := mem_candidates _ _ _ hr
      have hrule : r = rule := by
        have := List.mem_singleton.mp hk
        exact (Prod.mk.inj this).2
      rw [hrule]
      exact ⟨fun h => hproto (Or.inl h), fun h => hproto (Or.inr h)⟩

/-- A witness of C8, at the inputs of the specification: the rule
{port 80, tcp, deny, both} denies the tcp packet 1.2.3.4:1234 -> 10.0.0.1:80
and allows the same packet with protocol udp. -/
theorem checkPacket_single_deny_rule_witness :
    (((NewFirewallService (⟨[("r", ⟨"r", 80, "tcp", "deny", "both", 0⟩)]⟩ :
          InMemoryRuleRepository) 0).CheckPacket inMemory ["10.0.0.1"]
            ⟨1234, 80, "tcp", "1.2.3.4", "10.0.0.1"⟩).2 = (false, none)
      ∧ ((NewFirewallService (⟨[("r", ⟨"r", 80, "tcp", "deny", "both", 0⟩)]⟩ :
          InMemoryRuleRepository) 0).CheckPacket inMemory ["10.0.0.1"]
            ⟨1234, 80, "tcp", "1.2.3.4", "10.0.0.1"⟩).1.stats.PacketsBlocked = 0 + 1)
    ∧ (((NewFirewallService (⟨[("r", ⟨"r", 80, "tcp", "deny", "both", 0⟩)]⟩ :
          InMemoryRuleRepository) 0).CheckPacket inMemory ["10.0.0.1"]
            ⟨1234, 80, "udp", "1.2.3.4", "10.0.0.1"⟩).2 = (true, none)
      ∧ ((NewFirewallService (⟨[("r", ⟨"r", 80, "tcp", "deny", "both", 0⟩)]⟩ :
          InMemoryRuleRepository) 0).CheckPacket inMemory ["10.0.0.1"]
            ⟨1234, 80, "udp", "1.2.3.4", "10.0.0.1"⟩).1.stats.PacketsBlocked = 0) :=
  ⟨(checkPacket_single_deny_rule
      (NewFirewallService (⟨[("r", ⟨"r", 80, "tcp", "deny", "both", 0⟩)]⟩ :
        InMemoryRuleRepository) 0) ["10.0.0.1"] ⟨1234, 80, "tcp", "1.2.3.4", "10.0.0.1"⟩
      "r" ⟨"r", 80, "tcp", "deny", "both", 0⟩ rfl rfl rfl rfl).1 (by decide),
    (checkPacket_single_deny_rule
      (NewFirewallService (⟨[("r", ⟨"r", 80, "tcp", "deny", "both", 0⟩)]⟩ :
        InMemoryRuleRepository) 0) ["10.0.0.1"] ⟨1234, 80, "udp", "1.2.3.4", "10.0.0.1"⟩
      "r" ⟨"r", 80, "tcp", "deny", "both", 0⟩ rfl rfl rfl rfl).2 (by decide)⟩

/-- C9: take the service after any calls on a fresh service over the
in-memory store, a rule `r` and a packet such that every stored rule with the
packet's destination or source port is `r`. After `RemoveRule(r.ID)`, which
returns no error, every later `CheckPacket` of that packet returns allow with
no error, however many packet checks come in between; and the removal leaves
the rule found under every other identifier as it was. -/
theorem removeRule_restores_default_allow (now : Int) (calls : List Call) (r : Rule)
    (packet : PacketInfo)
    (honly : ∀ e ∈ (runCalls (NewFirewallService NewInMemoryRuleRepository now)
        calls).repo.rules,
      (e.2.Port = packet.DestinationPort ∨ e.2.Port = packet.SourcePort) → e.2 = r) :
    ((runCalls (NewFirewallService NewInMemoryRuleRepository now) calls).RemoveRule
        inMemory r.ID).2 = none
    ∧ (∀ (mid : List (List String × PacketInfo)) (localIPs : List String),
        ((runCalls ((runCalls (NewFirewallService NewInMemoryRuleRepository now)
              calls).RemoveRule inMemory r.ID).1
            (mid.map (fun c => Call.CheckPacket c.1 c.2))).CheckPacket
          inMemory localIPs packet).2 = (true, none))
    ∧ (∀ id : String, id ≠ r.ID →
        (((runCalls (NewFirewallService NewInMemoryRuleRepository now)
            calls).RemoveRule inMemory r.ID).1.repo.GetRule id).2
          = ((runCalls (NewFirewallService NewInMemoryRuleRepository now)
              calls).repo.GetRule id).2) := by
  have hkey := runCalls_keyed calls (NewFirewallService NewInMemoryRuleRepository now)
    (by intro e he; cases he)
  refine ⟨rfl, ?_, ?_⟩
  · intro mid localIPs
    apply (checkPacket_default_permit_aux _ localIPs packet _).1
    rw [runCalls_checks_repo]
    intro e he
    have hmem := (RuleMap.mem_delete _ _ _).mp he
    have hne : e.2 ≠ r := by
      intro hc
      apply hmem.2
      rw [hkey e hmem.1, hc]
    constructor
    · exact fun hp => hne (honly e hmem.1 (Or.inl hp))
    · exact fun hp => hne (honly e hmem.1 (Or.inr hp))
  · intro id hid
    show (InMemoryRuleRepository.GetRule ⟨RuleMap.delete _ r.ID⟩ id).2 = _
    unfold InMemoryRuleRepository.GetRule
    simp only [RuleMap.index_delete_ne _ _ _ hid]
    cases RuleMap.index _ id <;> rfl

/-- A witness of C9: rules on ports 80 and 443; the packet to port 80 is
denied before the rule of port 80 is removed and allowed after. -/
theorem removeRule_restores_default_allow_witness :
    ((runCalls (NewFirewallService NewInMemoryRuleRepository 0)
        [.AddRule ⟨"r", 80, "tcp", "deny", "both", 0⟩ 1 2,
          .AddRule ⟨"q", 443, "tcp", "deny", "both", 0⟩ 3 4]).CheckPacket inMemory []
        ⟨1234, 80, "tcp", "1.2.3.4", "10.0.0.1"⟩).2 = (false, none)
    ∧ (((runCalls (NewFirewallService NewInMemoryRuleRepository 0)
        [.AddRule ⟨"r", 80, "tcp", "deny", "both", 0⟩ 1 2,
          .AddRule ⟨"q", 443, "tcp", "deny", "both", 0⟩ 3 4]).RemoveRule inMemory
            "r").1.CheckPacket inMemory [] ⟨1234, 80, "tcp", "1.2.3.4", "10.0.0.1"⟩).2
        = (true, none) :=
  ⟨by decide,
    (removeRule_restores_default_allow 0
      [.AddRule ⟨"r", 80, "tcp", "deny", "both", 0⟩ 1 2,
        .AddRule ⟨"q", 443, "tcp", "deny", "both", 0⟩ 3 4]
      ⟨"r", 80, "tcp", "deny", "both", 2⟩ ⟨1234, 80, "tcp", "1.2.3.4", "10.0.0.1"⟩
      (by decide)).2.1 [] []⟩

theorem stampRule_fields (rule : Rule) (nowID nowCreated : Int) :
    (stampRule rule nowID nowCreated).Port = rule.Port
    ∧ (stampRule rule nowID nowCreated).Protocol = rule.Protocol
    ∧ (stampRule rule nowID nowCreated).Action = rule.Action
    ∧ (stampRule rule nowID nowCreated).Direction = rule.Direction
    ∧ (rule.ID = "" → (stampRule rule nowID nowCreated).ID = "rule_" ++ toString nowID)
    ∧ (rule.ID ≠ "" → (stampRule rule nowID nowCreated).ID = rule.ID) := by
  unfold stampRule
  by_cases h : rule.ID = ""
  · simp [h]
  · simp [h]

/-- C10: for a rule that is valid, `AddRule` over the in-memory store returns
no error and persists one rule: the store afterwards is the store before with
that rule assigned under its own identifier, and `GetRule` returns it under
that identifier. The persisted rule has a non-empty identifier, which is the
supplied one when that is non-empty and the generated "rule_" followed by the
clock reading when it is empty, and the port, protocol, action and direction
of the supplied rule. -/
theorem addRule_persists_under_identifier (s : firewallService InMemoryRuleRepository)
    (rule : Rule) (nowID nowCreated : Int) (hvalid : rule.Valid) :
    (s.AddRule inMemory rule nowID nowCreated).2 = none
    ∧ ∃ stored : Rule,
        stored.ID ≠ ""
        ∧ (rule.ID = "" → stored.ID = "rule_" ++ toString nowID)
        ∧ (rule.ID ≠ "" → stored.ID = rule.ID)
        ∧ (s.AddRule inMemory rule nowID nowCreated).1.repo.rules
            = s.repo.rules.assign stored.ID stored
        ∧ ((s.AddRule inMemory rule nowID nowCreated).1.repo.GetRule stored.ID).2
            = (some stored, none)
        ∧ stored.Port = rule.Port ∧ stored.Protocol = rule.Protocol
        ∧ stored.Action = rule.Action ∧ stored.Direction = rule.Direction := by
  rw [AddRule_valid _ _ _ _ _ hvalid]
  obtain ⟨hport, hproto, hact, hdir, hgen, hkeep⟩ := stampRule_fields rule nowID nowCreated
  refine ⟨rfl, stampRule rule nowID nowCreated, ?_, hgen, hkeep, rfl, ?_,
    hport, hproto, hact, hdir⟩
  · by_cases h : rule.ID = ""
    · rw [hgen h]
      exact genID_ne_empty nowID
    · rw [hkeep h]
      exact h
  · show (InMemoryRuleRepository.GetRule ⟨RuleMap.assign _ _ _⟩ _).2 = _
    unfold InMemoryRuleRepository.GetRule
    simp only [RuleMap.index_assign_self]

/-- A witness of C10: a valid rule without identifier, added at clock reading
12345, is accepted and is found under "rule_12345". -/
theorem addRule_persists_under_identifier_witness :
    (⟨"", 80, "tcp", "deny", "both", 0⟩ : Rule).Valid
    ∧ ((NewFirewallService NewInMemoryRuleRepository 0).AddRule inMemory
          ⟨"", 80, "tcp", "deny", "both", 0⟩ 12345 7).2 = none
    ∧ (((NewFirewallService NewInMemoryRuleRepository 0).AddRule inMemory
          ⟨"", 80, "tcp", "deny", "both", 0⟩ 12345 7).1.repo.GetRule "rule_12345").2
        = (some ⟨"rule_12345", 80, "tcp", "deny", "both", 7⟩, none) :=
  ⟨by decide,
    (addRule_persists_under_identifier (NewFirewallService NewInMemoryRuleRepository 0)
      ⟨"", 80, "tcp", "deny", "both", 0⟩ 12345 7 (by decide)).1,
    by decide⟩

/-! ## The ingestion queue -/

theorem sendPacket_room (h : PacketHandler) (packet : PacketInfo)
    (hopen : h.packets.closed = false) (hroom : h.packets.buf.length < h.packets.cap) :
    h.sendPacket packet
      = .ok { h with packets := { h.packets with buf := h.packets.buf ++ [packet] } } := by
  unfold PacketHandler.sendPacket Chan.trySend
  rw [if_neg (by simp [hopen]), if_pos hroom]
  rfl

theorem sendPacket_full (h : PacketHandler) (packet : PacketInfo)
    (hopen : h.packets.closed = false) (hfull : ¬ h.packets.buf.length < h.packets.cap) :
    h.sendPacket packet = .ok h := by
  unfold PacketHandler.sendPacket Chan.trySend
  rw [if_neg (by simp [hopen]), if_neg hfull]
  rfl

/-- A burst offered to an open channel fills the room that is left, in
arrival order, and changes nothing else. -/
theorem offerAll_open (ps : List PacketInfo) (h : PacketHandler)
    (hopen : h.packets.closed = false) :
    h.offerAll ps
      = .ok { h with packets := { h.packets with
          buf := h.packets.buf ++ ps.take (h.packets.cap - h.packets.buf.length) } } := by
  induction ps generalizing h with
  | nil => simp [PacketHandler.offerAll]
  | cons p rest ih =>
    unfold PacketHandler.offerAll
    by_cases hroom : h.packets.buf.length < h.packets.cap
    · rw [sendPacket_room h p hopen hroom]
      simp only
      have hnext := ih ⟨⟨h.packets.cap, h.packets.buf ++ [p], h.packets.closed⟩,
        h.stopChan, h.listeners⟩ hopen
      rw [hnext]
      have hk : h.packets.cap - h.packets.buf.length
          = (h.packets.cap - (h.packets.buf ++ [p]).length) + 1 := by
        simp only [List.length_append, List.length_singleton]
        omega
      simp only [hk, List.take_succ_cons, List.append_assoc, List.singleton_append]
    · rw [sendPacket_full h p hopen hroom]
      simp only
      rw [ih h hopen]
      have hk : h.packets.cap - h.packets.buf.length = 0 := by omega
      simp only [hk, List.take_zero]

/-- C11: offer any burst of packet descriptors, one after the other, to the
handler `NewPacketHandler` builds, with nothing receiving. No offer panics,
the channel stays open, and its buffer holds the first 1000 descriptors of
the burst in arrival order, that is all of them when there are at most 1000,
so min(n, 1000) of them; the rest of the burst is what was dropped. Once the
buffer holds 1000 descriptors an offer returns the handler as it was. The
sends of `processTCPConnection` and of a round of `handleUDPPackets` are such
offers, of a tcp and of a udp descriptor. -/
theorem packet_queue_drop_on_full (ps : List PacketInfo) :
    (∃ h : PacketHandler, NewPacketHandler.1.offerAll ps = .ok h
      ∧ h.packets.buf = ps.take 1000
      ∧ h.packets.buf.length = min ps.length 1000
      ∧ h.packets.buf ++ ps.drop 1000 = ps
      ∧ h.packets.closed = false ∧ h.packets.cap = 1000
      ∧ (∀ packet : PacketInfo, 1000 ≤ ps.length → h.sendPacket packet = .ok h))
    ∧ (∀ (h : PacketHandler) (remoteAddr localAddr : Addr),
        h.processTCPConnection remoteAddr localAddr
            = h.sendPacket ⟨remoteAddr.Port, localAddr.Port, "tcp", remoteAddr.IP,
                localAddr.IP⟩
          ∧ h.handleUDPPacket remoteAddr localAddr
            = h.sendPacket ⟨remoteAddr.Port, localAddr.Port, "udp", remoteAddr.IP,
                localAddr.IP⟩) := by
  refine ⟨⟨_, offerAll_open ps NewPacketHandler.1 rfl, ?_, ?_, ?_, rfl, rfl, ?_⟩,
    fun h r l => ⟨rfl, rfl⟩⟩
  · simp [NewPacketHandler, Chan.make]
  · simp [NewPacketHandler, Chan.make, List.length_take, Nat.min_comm]
  · simp [NewPacketHandler, Chan.make]
  · intro packet hlen
    apply sendPacket_full
    · rfl
    · simp [NewPacketHandler, Chan.make, List.length_take]
      omega

/-- A witness of C11 for a burst of two: both descriptors are buffered, in
arrival order, and a full buffer turns a further offer away. -/
theorem packet_queue_drop_on_full_witness :
    (∃ h : PacketHandler,
      NewPacketHandler.1.offerAll [⟨1234, 80, "tcp", "1.2.3.4", "10.0.0.1"⟩,
        ⟨53, 80, "udp", "5.6.7.8", "10.0.0.1"⟩] = .ok h
      ∧ h.packets.buf = [⟨1234, 80, "tcp", "1.2.3.4", "10.0.0.1"⟩,
        ⟨53, 80, "udp", "5.6.7.8", "10.0.0.1"⟩]) :=
  (packet_queue_drop_on_full [⟨1234, 80, "tcp", "1.2.3.4", "10.0.0.1"⟩,
      ⟨53, 80, "udp", "5.6.7.8", "10.0.0.1"⟩]).1.imp (fun _ hh => ⟨hh.1, hh.2.1⟩)

end Firewall
